import Mathlib

/-!
Shallow embedding of the xdf-tagger core (src/main.py).

A file handle is modelled as a byte list `data : List Nat` together with an
explicit read cursor `pos : Nat`.  `hread` models `fh.read(n)` for a
non-negative count (it may return fewer bytes at end of input, advancing the
cursor by the number of bytes actually returned) and `hreadInt` additionally
models the Python behaviour of `fh.read(k)` for negative `k`, which reads to
the end of the file.

Text values (the metadata document, the default document) are represented by
their UTF-8 byte encodings; the lossy UTF-8 decode at main.py:232 is modelled
as the identity on the byte blob, since the document schema is treated as an
opaque collaborator by the program.  The XML parse plus the name/type test at
main.py:233-234 is modelled by an ambient function
`classify : List Nat → Option Bool` (`none` models a parse error raised by
`et.fromstring`/the dict lookups, `some b` models a successful parse with `b`
the result of the name/type comparison).  The `random.randint` draws at
main.py:266 are modelled by an ambient oracle list `draws`, and the
module-level `uuid.uuid4()` in `metadata_default` by an ambient `uid` string.
-/

deriving instance DecidableEq for Except

def hread (data : List Nat) (pos n : Nat) : List Nat × Nat :=
  let b := (data.drop pos).take n
  (b, pos + b.length)

/-- Python `fh.read(k)` with an int argument: a negative count reads to EOF. -/
def hreadInt (data : List Nat) (pos : Nat) : Int → List Nat × Nat
  | .ofNat n => hread data pos n
  | .negSucc _ =>
    let b := data.drop pos
    (b, pos + b.length)

/-- Little-endian byte encoding of `v` into exactly `k` bytes (struct.pack). -/
def leBytes : Nat → Nat → List Nat
  | 0, _ => []
  | k + 1, v => v % 256 :: leBytes k (v / 256)

/-- Little-endian value of a byte list (struct.unpack). -/
def leVal : List Nat → Nat
  | [] => 0
  | b :: bs => b + 256 * leVal bs

/-- main.py:56-66 `read_varlen_int`.  Returns the decoded value and the new
cursor, or the cursor at the point of failure (any exception: an invalid
width selector, or a short read making `struct.unpack` fail). -/
def read_varlen_int (data : List Nat) (pos : Nat) : Except Nat (Nat × Nat) :=
  let s := hread data pos 1
  if s.1.length = 1 then
    let nbytes := s.1.headD 0
    if nbytes = 1 then
      let b := hread data s.2 1
      if b.1.length = 1 then .ok (leVal b.1, b.2) else .error b.2
    else if nbytes = 4 then
      let b := hread data s.2 4
      if b.1.length = 4 then .ok (leVal b.1, b.2) else .error b.2
    else if nbytes = 8 then
      let b := hread data s.2 8
      if b.1.length = 8 then .ok (leVal b.1, b.2) else .error b.2
    else .error s.2
  else .error s.2

/-- main.py:70-77 `write_varlen_int`.  The second branch tests
`i <= 0xFFFFFFFFF` exactly as the source does (nine F digits, i.e. 2^36-1);
`none` models `struct.error` raised by `struct.pack` when the value does not
fit the chosen width. -/
def write_varlen_int (i : Nat) : Option (List Nat) :=
  if i ≤ 0xFF then some [1, i]
  else if i ≤ 0xFFFFFFFFF then
    if i ≤ 0xFFFFFFFF then some (4 :: leBytes 4 i) else none
  else if i ≤ 0xFFFFFFFFFFFFFFFF then some (8 :: leBytes 8 i) else none

/-- main.py:80-93 `write_chunk`: varlen length (content length + 2), then the
tag as 2 bytes LE, then the content verbatim. -/
def write_chunk (tag : Nat) (content : List Nat) : Option (List Nat) :=
  if tag < 65536 then
    (write_varlen_int (content.length + 2)).map
      (fun lenBytes => lenBytes ++ leBytes 2 tag ++ content)
  else none

/-- The fixed 16-byte boundary signature from main.py:100-101. -/
def boundary_signature : List Nat :=
  [0x43, 0xA5, 0x46, 0xDC, 0xCB, 0xF5, 0x41, 0x0F,
   0xB3, 0x0E, 0xD5, 0x46, 0x73, 0x83, 0xCB, 0xE4]

/-- Python `bytes.find`: index of the first full occurrence of `pat` in `l`,
or `none`. -/
def findSub (l pat : List Nat) : Option Nat :=
  if pat.isPrefixOf l then some 0
  else
    match l with
    | [] => none
    | _ :: t => (findSub t pat).map (· + 1)

/-- Scan window size from main.py:99 (`blocklen = 2**20`). -/
def blocklen : Nat := 2 ^ 20

structure ScanResult where
  found : Bool
  pos : Nat
  deriving DecidableEq, Repr

/-- main.py:96-112 `scan_forward`: read forward in `blocklen` windows; on the
first in-window match at absolute offset `m` seek to `m + 15` and stop; on a
short window with no match stop at the end of the data. -/
def scan_forward (data : List Nat) (pos : Nat) : ScanResult :=
  match findSub ((data.drop pos).take blocklen) boundary_signature with
  | some m => ⟨true, pos + m + 15⟩
  | none =>
    if h : ((data.drop pos).take blocklen).length < blocklen then
      ⟨false, pos + ((data.drop pos).take blocklen).length⟩
    else scan_forward data (pos + blocklen)
termination_by data.length - pos
decreasing_by
  simp only [List.length_take, List.length_drop, not_lt, blocklen] at h
  simp only [blocklen]
  omega

/-- The 4-byte magic marker from main.py:182 (`b'XDF:'`). -/
def xdfMagic : List Nat := [0x58, 0x44, 0x46, 0x3A]

/-- main.py:30-46 `metadata_default` after `inspect.cleandoc` and the `%s`
substitution, parameterized by the module-load `uuid.uuid4()` string. -/
def metadata_default (uid : String) : String :=
  "<?xml version=\"1.0\"?>\n<info>\n    <name>Metadata</name>\n    <type>Metadata</type>\n    <channel_count>0</channel_count>\n    <nominal_srate>0</nominal_srate>\n    <channel_format>string</channel_format>\n    <source_id></source_id>\n    <version>1.1000000000000001</version>\n    <created_at>0</created_at>\n    <uid>" ++ uid ++ "</uid>\n    <session_id>default</session_id>\n    <hostname>undefined</hostname>\n    <desc></desc>\n</info>"

/-- UTF-8 bytes of a string, as the byte-list representation of text. -/
def strBytes (s : String) : List Nat := s.toUTF8.toList.map (fun b => b.toNat)

/-- Error outcomes of the embedded code paths (Python exceptions), plus the
`fuel`/`diverge` markers for the two unbounded loops (the chunk traversal and
the fresh-id draw loop, driven here by a finite oracle). -/
inductive Err where
  /-- main.py:183 `not a valid XDF file`. -/
  | invalidContainer
  /-- `struct.error` from a short read outside `read_varlen_int`. -/
  | structError
  /-- an exception from `et.fromstring`/the header dict lookups. -/
  | xmlError
  /-- the fresh-id loop at main.py:261-269 exhausted the draw oracle. -/
  | diverge
  /-- traversal fuel exhausted (does not occur for `data.length + 1` fuel). -/
  | fuel
  /-- `TypeError` from using a `None` span or content downstream. -/
  | typeNone
  /-- `struct.error` from `struct.pack` on an out-of-range value. -/
  | packError
  deriving DecidableEq, Repr

/-- Loop-scoped accumulators of main.py:186-197. -/
structure LocSt where
  streamheaders_begin : Option Nat
  metadata_begin : Option Nat
  metadata_len : Option Nat
  metadata_content : Option (List Nat)
  metadata_id : Option Nat
  other_ids : List Nat
  has_more_than_one : Bool
  deriving DecidableEq, Repr

def initSt : LocSt := ⟨none, none, none, none, none, [], false⟩

/-- main.py:261-269: draw ids until one is not in `other_ids`; the oracle list
`draws` supplies the successive `random.randint(10000, 99999)` results. -/
def pickFresh (draws other : List Nat) : Option Nat :=
  match draws with
  | [] => none
  | d :: rest => if d ∈ other then pickFresh rest other else some d

/-- The result of `get_metadata_content` (main.py:282), together with the
`has_more_than_one` flag (the warning at main.py:275-277 is emitted exactly
when it is true) and the final cursor of the handle. -/
structure GMCResult where
  metadata_content : Option (List Nat)
  metadata_begin : Option Nat
  metadata_len : Option Nat
  metadata_id : Option Nat
  has_more_than_one : Bool
  final_pos : Nat
  deriving DecidableEq, Repr

/-- The `while True` traversal of main.py:200-273, one constructor case per
iteration, structurally recursive on a fuel argument (the top-level entry
passes `data.length + 1`, which is enough because every continuing iteration
strictly advances the cursor). -/
def locLoop (classify : List Nat → Option Bool) (uid : String)
    (draws : List Nat) (data : List Nat) (filesize : Nat) :
    Nat → Nat → LocSt → Except Err LocSt
  | 0, _, _ => .error .fuel
  | fuel + 1, pos, st =>
    match read_varlen_int data pos with
    | .error perr =>
      if (perr : Int) < (filesize : Int) - 1024 then
        locLoop classify uid draws data filesize fuel
          (scan_forward data perr).pos st
      else
        .ok st
    | .ok (chunklen, p1) =>
      let tb := hread data p1 2
      if tb.1.length = 2 then
        let tag := leVal tb.1
        if tag = 2 then
          let st1 :=
            if st.streamheaders_begin = none then
              { st with streamheaders_begin := some pos }
            else st
          let ib := hread data tb.2 4
          if ib.1.length = 4 then
            let stream_id := leVal ib.1
            let xb := hreadInt data ib.2 ((chunklen : Int) - 6)
            match classify xb.1 with
            | none => .error .xmlError
            | some isMeta =>
              if isMeta then
                if st1.metadata_begin = none then
                  locLoop classify uid draws data filesize fuel xb.2
                    { st1 with
                      metadata_begin := some pos
                      metadata_len := some (xb.2 - pos)
                      metadata_content := some xb.1
                      metadata_id := some stream_id }
                else
                  locLoop classify uid draws data filesize fuel xb.2
                    { st1 with
                      has_more_than_one := true
                      other_ids := st1.other_ids ++ [stream_id] }
              else
                locLoop classify uid draws data filesize fuel xb.2
                  { st1 with other_ids := st1.other_ids ++ [stream_id] }
          else .error .structError
        else if tag = 3 ∨ tag = 6 then
          if st.metadata_content = none then
            match pickFresh draws st.other_ids with
            | none => .error .diverge
            | some k =>
              .ok { st with
                metadata_content := some (strBytes (metadata_default uid))
                metadata_begin := st.streamheaders_begin
                metadata_len := some 0
                metadata_id := some k }
          else .ok st
        else
          locLoop classify uid draws data filesize fuel
            (hreadInt data tb.2 ((chunklen : Int) - 2)).2 st
      else .error .structError

/-- main.py:157-282 `get_metadata_content`: save the cursor, seek to 0, check
the magic marker, traverse the chunks, and restore the cursor on the normal
return path. -/
def get_metadata_content (classify : List Nat → Option Bool) (uid : String)
    (draws : List Nat) (data : List Nat) (oldpos : Nat) :
    Except Err GMCResult :=
  let m := hread data 0 4
  if m.1 = xdfMagic then
    match locLoop classify uid draws data data.length (data.length + 1)
        m.2 initSt with
    | .error e => .error e
    | .ok st =>
      .ok ⟨st.metadata_content, st.metadata_begin, st.metadata_len,
           st.metadata_id, st.has_more_than_one, oldpos⟩
  else .error .invalidContainer

/-- main.py:347-360 `copy_range`, as a loop on an explicit iteration bound:
full 65536-byte blocks while `length >= blocksize`, then one final partial
read when `length` is nonzero (for a negative `length` that final
`inf.read(length)` reads to EOF, as in Python). -/
def copy_range_loop (data : List Nat) : Nat → Nat → Int → List Nat × Nat
  | 0, pos, length =>
    if length ≠ 0 then hreadInt data pos length else ([], pos)
  | k + 1, pos, length =>
    if length ≥ 65536 then
      let b := hread data pos 65536
      let r := copy_range_loop data k b.2 (length - 65536)
      (b.1 ++ r.1, r.2)
    else if length ≠ 0 then hreadInt data pos length
    else ([], pos)

def copy_range (data : List Nat) (pos : Nat) (length : Int) : List Nat × Nat :=
  copy_range_loop data length.toNat pos length

/-- main.py:363-421 `process_file`, restricted to its byte-level core: the
input file is `data`, the opened input handle starts at cursor 0, and the
content transform (`process_metadata_content`, an out-of-scope collaborator
per the specification) is the ambient `transform` on the text blob.  The
returned list is the byte content written to the output file.  Path handling
(`outpath` naming, the overwrite check, the temp-file rename) is outside the
byte-level model. -/
def process_file (classify : List Nat → Option Bool) (uid : String)
    (draws : List Nat) (transform : List Nat → List Nat)
    (data : List Nat) : Except Err (List Nat) :=
  match get_metadata_content classify uid draws data 0 with
  | .error e => .error e
  | .ok r =>
    match r.metadata_content with
    | none => .error .typeNone
    | some c =>
      let nc := transform c
      if nc ≠ c then
        match r.metadata_begin, r.metadata_len, r.metadata_id with
        | some b, some l, some i =>
          let pre := copy_range data 0 (b : Int)
          if i ≤ 0xFFFFFFFF then
            match write_chunk 2 (leBytes 4 i ++ nc) with
            | none => .error .packError
            | some ck =>
              let post := copy_range data (b + l)
                ((data.length : Int) - (b : Int) - (l : Int))
              .ok (pre.1 ++ ck ++ post.1)
          else .error .packError
        | _, _, _ => .error .typeNone
      else .ok data

theorem length_leBytes (k v : Nat) : (leBytes k v).length = k := by
  induction k generalizing v with
  | zero => rfl
  | succ k ih => simp [leBytes, ih]

theorem leVal_leBytes (k v : Nat) (h : v < 256 ^ k) : leVal (leBytes k v) = v := by
  induction k generalizing v with
  | zero => simp [pow_zero] at h; simp [leBytes, leVal, h]
  | succ k ih =>
    have hd : v / 256 < 256 ^ k := by
      rw [Nat.div_lt_iff_lt_mul (by norm_num)]
      calc v < 256 ^ (k + 1) := h
        _ = 256 ^ k * 256 := by ring
    simp [leBytes, leVal, ih _ hd]
    omega

theorem drop_append_len (l₁ l₂ : List Nat) (n : Nat) (h : n = l₁.length) :
    (l₁ ++ l₂).drop n = l₂ := by
  subst h; simp

theorem take_append_len (l₁ l₂ : List Nat) (n : Nat) (h : n = l₁.length) :
    (l₁ ++ l₂).take n = l₁ := by
  subst h; simp

theorem hread_exact (pre mid suf : List Nat) (n : Nat) (h : n = mid.length) :
    hread (pre ++ mid ++ suf) pre.length n = (mid, pre.length + n) := by
  subst h
  simp [hread, List.append_assoc, drop_append_len pre (mid ++ suf) _ rfl,
    take_append_len mid suf _ rfl]

theorem hread_exact' (data pre mid suf : List Nat) (pos n : Nat)
    (hd : data = pre ++ mid ++ suf) (hp : pos = pre.length)
    (h : n = mid.length) :
    hread data pos n = (mid, pos + n) := by
  subst hd; subst hp; exact hread_exact pre mid suf n h

theorem hreadInt_exact (data pre mid suf : List Nat) (pos : Nat) (n : Int)
    (hd : data = pre ++ mid ++ suf) (hp : pos = pre.length)
    (h : n = (mid.length : Int)) :
    hreadInt data pos n = (mid, pos + mid.length) := by
  subst hd hp h
  simp only [hreadInt, Int.ofNat_eq_coe]
  exact hread_exact pre mid suf mid.length rfl

/-- A negative-count read returns the whole remainder (Python `read(-k)`). -/
theorem hreadInt_neg (data : List Nat) (pos : Nat) (n : Int) (h : n < 0) :
    hreadInt data pos n = (data.drop pos, pos + (data.drop pos).length) := by
  match n, h with
  | .negSucc m, _ => rfl

/-- Canonical varlen encoding used to build test inputs for the reader. -/
def encVarlen (v : Nat) : List Nat :=
  if v ≤ 255 then [1, v]
  else if v ≤ 0xFFFFFFFF then 4 :: leBytes 4 v
  else 8 :: leBytes 8 v

theorem length_encVarlen_pos (v : Nat) : 2 ≤ (encVarlen v).length := by
  unfold encVarlen
  split <;> [skip; split] <;> simp [length_leBytes]

theorem read_varlen_enc (pre suf : List Nat) (v : Nat) (h : v < 2 ^ 64) :
    read_varlen_int (pre ++ encVarlen v ++ suf) pre.length
      = .ok (v, pre.length + (encVarlen v).length) := by
  unfold encVarlen
  by_cases h1 : v ≤ 255
  · rw [if_pos h1]
    rw [read_varlen_int]
    rw [hread_exact' (pre ++ [1, v] ++ suf) pre [1] ([v] ++ suf) pre.length 1
      (by simp) rfl rfl]
    rw [hread_exact' (pre ++ [1, v] ++ suf) (pre ++ [1]) [v] suf
      (pre.length + 1) 1 (by simp) (by simp) rfl]
    simp [leVal]
  · by_cases h4 : v ≤ 0xFFFFFFFF
    · rw [if_neg h1, if_pos h4]
      rw [read_varlen_int]
      rw [hread_exact' (pre ++ 4 :: leBytes 4 v ++ suf) pre [4]
        (leBytes 4 v ++ suf) pre.length 1 (by simp) rfl rfl]
      rw [hread_exact' (pre ++ 4 :: leBytes 4 v ++ suf) (pre ++ [4])
        (leBytes 4 v) suf (pre.length + 1) 4 (by simp) (by simp)
        (by simp [length_leBytes])]
      have hv : leVal (leBytes 4 v) = v := leVal_leBytes 4 v (by norm_num; omega)
      simp [length_leBytes, hv]
    · rw [if_neg h1, if_neg h4]
      rw [read_varlen_int]
      rw [hread_exact' (pre ++ 8 :: leBytes 8 v ++ suf) pre [8]
        (leBytes 8 v ++ suf) pre.length 1 (by simp) rfl rfl]
      rw [hread_exact' (pre ++ 8 :: leBytes 8 v ++ suf) (pre ++ [8])
        (leBytes 8 v) suf (pre.length + 1) 8 (by simp) (by simp)
        (by simp [length_leBytes])]
      have hv : leVal (leBytes 8 v) = v := leVal_leBytes 8 v (by norm_num; omega)
      simp [length_leBytes, hv]

theorem copy_range_loop_exact (data : List Nat) (k : Nat) :
    ∀ (pos : Nat) (length : Int), 0 ≤ length → length.toNat ≤ k →
      pos + length.toNat ≤ data.length →
      copy_range_loop data k pos length
        = ((data.drop pos).take length.toNat, pos + length.toNat) := by
  induction k with
  | zero =>
    intro pos length h0 hk hlen
    have hz : length = 0 := by omega
    subst hz
    rw [copy_range_loop]
    simp
  | succ k ih =>
    intro pos length h0 hk hlen
    by_cases hbig : length ≥ 65536
    · have hb : hread data pos 65536
          = ((data.drop pos).take 65536, pos + 65536) := by
        have hl : ((data.drop pos).take 65536).length = 65536 := by
          simp only [List.length_take, List.length_drop]
          omega
        simp [hread, hl]
      rw [copy_range_loop, if_pos hbig]
      simp only [hb, ih (pos + 65536) (length - 65536) (by omega) (by omega)
        (by omega)]
      have ht : (length - 65536).toNat = length.toNat - 65536 := by omega
      rw [ht, Prod.mk.injEq]
      refine ⟨?_, by omega⟩
      conv_rhs =>
        rw [show length.toNat = 65536 + (length.toNat - 65536) from by omega]
      rw [List.take_add, List.drop_drop]
    · rw [copy_range_loop, if_neg hbig]
      by_cases hz : length = 0
      · subst hz; simp
      · rw [if_pos hz]
        obtain ⟨n, rfl⟩ : ∃ n : Nat, length = (n : Int) :=
          ⟨length.toNat, (Int.toNat_of_nonneg h0).symm⟩
        have hl : ((data.drop pos).take n).length = n := by
          simp only [List.length_take, List.length_drop]
          omega
        simp [hreadInt, hread, hl]

theorem copy_range_exact (data : List Nat) (pos : Nat) (length : Int)
    (h0 : 0 ≤ length) (hlen : pos + length.toNat ≤ data.length) :
    copy_range data pos length
      = ((data.drop pos).take length.toNat, pos + length.toNat) :=
  copy_range_loop_exact data length.toNat pos length h0 le_rfl hlen

theorem isPrefixOf_length {p l : List Nat} (h : p.isPrefixOf l = true) :
    p.length ≤ l.length := by
  induction p generalizing l with
  | nil => simp
  | cons a p ih =>
    match l with
    | [] => simp [List.isPrefixOf] at h
    | b :: l =>
      simp only [List.isPrefixOf, Bool.and_eq_true] at h
      simpa using ih h.2

theorem isPrefixOf_iff_take {p l : List Nat} :
    p.isPrefixOf l = true ↔ l.take p.length = p := by
  induction p generalizing l with
  | nil => simp [List.isPrefixOf]
  | cons a p ih =>
    match l with
    | [] => simp [List.isPrefixOf]
    | b :: l =>
      simp only [List.isPrefixOf, Bool.and_eq_true, beq_iff_eq,
        List.length_cons, List.take_succ_cons, List.cons.injEq, ih]
      tauto

theorem isPrefixOf_take {p l : List Nat} (n : Nat)
    (hp : p.isPrefixOf l = true) (hn : p.length ≤ n) :
    p.isPrefixOf (l.take n) = true := by
  rw [isPrefixOf_iff_take] at hp ⊢
  rw [List.take_take, min_eq_left hn, hp]

theorem isPrefixOf_of_take {p l : List Nat} (n : Nat)
    (hp : p.isPrefixOf (l.take n) = true) : p.isPrefixOf l = true := by
  rw [isPrefixOf_iff_take] at hp ⊢
  rw [List.take_take] at hp
  rcases Nat.le_total p.length n with hc | hc
  · rwa [min_eq_left hc] at hp
  · rw [min_eq_right hc] at hp
    have hlen := congrArg List.length hp
    simp only [List.length_take] at hlen
    have hpn : p.length = n := by omega
    rw [hpn]
    exact hp

theorem findSub_none_iff (l pat : List Nat) :
    findSub l pat = none ↔ ∀ i, ¬ pat.isPrefixOf (l.drop i) = true := by
  induction l with
  | nil =>
    rw [findSub]
    by_cases hp : pat.isPrefixOf ([] : List Nat) = true
    · rw [if_pos hp]
      constructor
      · intro h
        exact Option.noConfusion h
      · intro h
        exact absurd hp (by simpa using h 0)
    · rw [if_neg hp]
      constructor
      · intro _ i
        simpa using hp
      · intro _
        rfl
  | cons a t ih =>
    rw [findSub]
    by_cases hp : pat.isPrefixOf (a :: t) = true
    · rw [if_pos hp]
      constructor
      · intro h
        exact Option.noConfusion h
      · intro h
        exact absurd hp (by simpa using h 0)
    · rw [if_neg hp]
      simp only [Option.map_eq_none']
      rw [ih]
      constructor
      · intro h i
        match i with
        | 0 => simpa using hp
        | i + 1 => simpa using h i
      · intro h i
        simpa using h (i + 1)

theorem findSub_some_iff (l pat : List Nat) : ∀ j,
    findSub l pat = some j ↔
      pat.isPrefixOf (l.drop j) = true ∧
        ∀ i, i < j → ¬ pat.isPrefixOf (l.drop i) = true := by
  induction l with
  | nil =>
    intro j
    rw [findSub]
    by_cases hp : pat.isPrefixOf ([] : List Nat) = true
    · rw [if_pos hp]
      constructor
      · intro h
        injection h with h
        subst h
        exact ⟨by simpa using hp, fun i hi => absurd hi (by omega)⟩
      · rintro ⟨h1, h2⟩
        rcases Nat.eq_zero_or_pos j with hj | hj
        · rw [hj]
        · exact absurd hp (by simpa using h2 0 hj)
    · rw [if_neg hp]
      constructor
      · intro h
        exact Option.noConfusion h
      · rintro ⟨h1, _⟩
        exact absurd (by simpa using h1) hp
  | cons a t ih =>
    intro j
    rw [findSub]
    by_cases hp : pat.isPrefixOf (a :: t) = true
    · rw [if_pos hp]
      constructor
      · intro h
        injection h with h
        subst h
        exact ⟨by simpa using hp, fun i hi => absurd hi (by omega)⟩
      · rintro ⟨h1, h2⟩
        rcases Nat.eq_zero_or_pos j with hj | hj
        · rw [hj]
        · exact absurd hp (by simpa using h2 0 hj)
    · rw [if_neg hp]
      constructor
      · intro h
        rw [Option.map_eq_some'] at h
        obtain ⟨j', hj', hjeq⟩ := h
        subst hjeq
        obtain ⟨hh1, hh2⟩ := (ih j').mp hj'
        refine ⟨by simpa using hh1, ?_⟩
        intro i hi
        match i with
        | 0 => simpa using hp
        | i + 1 =>
          simpa using hh2 i (by omega)
      · rintro ⟨h1, h2⟩
        match j with
        | 0 => exact absurd (by simpa using h1) hp
        | j' + 1 =>
          have := (ih j').mpr ⟨by simpa using h1,
            fun i hi => by simpa using h2 (i + 1) (by omega)⟩
          rw [this, Option.map_some']

theorem scan_forward_eq_found {data : List Nat} {pos j : Nat}
    (hfs : findSub ((data.drop pos).take blocklen) boundary_signature
      = some j) :
    scan_forward data pos = ⟨true, pos + j + 15⟩ := by
  rw [scan_forward, hfs]

theorem scan_forward_eq_short {data : List Nat} {pos : Nat}
    (hfs : findSub ((data.drop pos).take blocklen) boundary_signature = none)
    (hshort : ((data.drop pos).take blocklen).length < blocklen) :
    scan_forward data pos
      = ⟨false, pos + ((data.drop pos).take blocklen).length⟩ := by
  rw [scan_forward, hfs]
  simp only [dif_pos hshort]

theorem scan_forward_eq_next {data : List Nat} {pos : Nat}
    (hfs : findSub ((data.drop pos).take blocklen) boundary_signature = none)
    (hfull : ¬ ((data.drop pos).take blocklen).length < blocklen) :
    scan_forward data pos = scan_forward data (pos + blocklen) := by
  rw [scan_forward, hfs]
  simp only [dif_neg hfull]

theorem scan_forward_found_aux (data : List Nat) :
    ∀ (meas pos m : Nat), data.length - pos ≤ meas → pos ≤ m →
      boundary_signature.isPrefixOf (data.drop m) = true →
      (∀ i, pos ≤ i → i < m →
        ¬ boundary_signature.isPrefixOf (data.drop i) = true) →
      (m - pos) % blocklen + 16 ≤ blocklen →
      scan_forward data pos = ⟨true, m + 15⟩ := by
  intro meas
  induction meas with
  | zero =>
    intro pos m hmeas hpm hocc hfirst hwin
    exfalso
    have h16 := isPrefixOf_length hocc
    rw [show boundary_signature.length = 16 from rfl, List.length_drop] at h16
    omega
  | succ meas ih =>
    intro pos m hmeas hpm hocc hfirst hwin
    have h16 := isPrefixOf_length hocc
    rw [show boundary_signature.length = 16 from rfl, List.length_drop] at h16
    by_cases hcase : m - pos < blocklen
    · have hmodeq : (m - pos) % blocklen = m - pos := Nat.mod_eq_of_lt hcase
      have hin : m - pos + 16 ≤ blocklen := by omega
      have hpref : boundary_signature.isPrefixOf
          (((data.drop pos).take blocklen).drop (m - pos)) = true := by
        rw [List.drop_take, List.drop_drop,
          show pos + (m - pos) = m from by omega]
        exact isPrefixOf_take _ hocc (by
          rw [show boundary_signature.length = 16 from rfl]; omega)
      have hmin : ∀ i, i < m - pos →
          ¬ boundary_signature.isPrefixOf
            (((data.drop pos).take blocklen).drop i) = true := by
        intro i hi hc
        rw [List.drop_take] at hc
        have hc' := isPrefixOf_of_take _ hc
        rw [List.drop_drop] at hc'
        exact hfirst (pos + i) (by omega) (by omega) hc'
      have hfs : findSub ((data.drop pos).take blocklen) boundary_signature
          = some (m - pos) :=
        (findSub_some_iff _ _ (m - pos)).mpr ⟨hpref, hmin⟩
      rw [scan_forward_eq_found hfs, show pos + (m - pos) = m from by omega]
    · have hfs : findSub ((data.drop pos).take blocklen) boundary_signature
          = none := by
        rw [findSub_none_iff]
        intro i hc
        have hilen := isPrefixOf_length hc
        rw [show boundary_signature.length = 16 from rfl] at hilen
        simp only [List.length_drop, List.length_take, List.length_drop]
          at hilen
        have hc' := isPrefixOf_of_take _ (by rw [List.drop_take] at hc; exact hc)
        rw [List.drop_drop] at hc'
        exact hfirst (pos + i) (by omega) (by omega) hc'
      have hfull : ¬ ((data.drop pos).take blocklen).length < blocklen := by
        simp only [List.length_take, List.length_drop]
        omega
      rw [scan_forward_eq_next hfs hfull]
      refine ih (pos + blocklen) m (by omega) (by omega) hocc
        (fun i h1 h2 => hfirst i (by omega) h2) ?_
      rw [show m - (pos + blocklen) = m - pos - blocklen from by omega,
        ← Nat.mod_eq_sub_mod (by omega)]
      exact hwin

/-- If the first full occurrence of the boundary signature at or after `pos`
starts at `m` and lies inside its scan window, the scanner stops with the
cursor at `m + 15` (the last byte of the 16-byte signature). -/
theorem scan_forward_found (data : List Nat) (pos m : Nat) (hpm : pos ≤ m)
    (hocc : boundary_signature.isPrefixOf (data.drop m) = true)
    (hfirst : ∀ i, pos ≤ i → i < m →
      ¬ boundary_signature.isPrefixOf (data.drop i) = true)
    (hwin : (m - pos) % blocklen + 16 ≤ blocklen) :
    scan_forward data pos = ⟨true, m + 15⟩ :=
  scan_forward_found_aux data (data.length - pos) pos m le_rfl hpm hocc
    hfirst hwin

theorem scan_forward_not_found_aux (data : List Nat) :
    ∀ (meas pos : Nat), data.length - pos ≤ meas →
      (∀ i, ¬ boundary_signature.isPrefixOf (data.drop i) = true) →
      (scan_forward data pos).found = false := by
  intro meas
  induction meas with
  | zero =>
    intro pos hmeas h
    have hfs : findSub ((data.drop pos).take blocklen) boundary_signature
        = none := by
      rw [findSub_none_iff]
      intro i hc
      have hc' := isPrefixOf_of_take _ (by rw [List.drop_take] at hc; exact hc)
      rw [List.drop_drop] at hc'
      exact h (pos + i) hc'
    have hshort : ((data.drop pos).take blocklen).length < blocklen := by
      have hb : 0 < blocklen := by decide
      simp only [List.length_take, List.length_drop]
      omega
    rw [scan_forward_eq_short hfs hshort]
  | succ meas ih =>
    intro pos hmeas h
    have hfs : findSub ((data.drop pos).take blocklen) boundary_signature
        = none := by
      rw [findSub_none_iff]
      intro i hc
      have hc' := isPrefixOf_of_take _ (by rw [List.drop_take] at hc; exact hc)
      rw [List.drop_drop] at hc'
      exact h (pos + i) hc'
    by_cases hshort : ((data.drop pos).take blocklen).length < blocklen
    · rw [scan_forward_eq_short hfs hshort]
    · rw [scan_forward_eq_next hfs hshort]
      refine ih (pos + blocklen) ?_ h
      have hb : 0 < blocklen := by decide
      omega

/-- If the boundary signature occurs nowhere in the data, the scanner
terminates with the not-found outcome (it never raises). -/
theorem scan_forward_not_found (data : List Nat) (pos : Nat)
    (h : ∀ i, ¬ boundary_signature.isPrefixOf (data.drop i) = true) :
    (scan_forward data pos).found = false :=
  scan_forward_not_found_aux data (data.length - pos) pos le_rfl h

/-- C4 (amended): when the first full occurrence of the 16-byte boundary
signature at or after the current position starts at absolute offset `m` and
lies entirely inside one of the scanner's 2^20-byte windows, the resync
scanner stops successfully with the source positioned at absolute offset
`m + 15` — the last byte of the 16-byte marker, one byte before the end —
not `m + 16`; and when no occurrence exists anywhere, it terminates with the
normal not-found outcome without raising an error. -/
theorem C4_scan_forward_amended (data : List Nat) (pos m : Nat) :
    (pos ≤ m →
      boundary_signature.isPrefixOf (data.drop m) = true →
      (∀ i, pos ≤ i → i < m →
        ¬ boundary_signature.isPrefixOf (data.drop i) = true) →
      (m - pos) % blocklen + 16 ≤ blocklen →
      scan_forward data pos = ⟨true, m + 15⟩) ∧
    ((∀ i, ¬ boundary_signature.isPrefixOf (data.drop i) = true) →
      (scan_forward data pos).found = false) :=
  ⟨fun h1 h2 h3 h4 => scan_forward_found data pos m h1 h2 h3 h4,
   fun h => scan_forward_not_found data pos h⟩

theorem C4_scan_forward_amended_witness :
    scan_forward boundary_signature 0 = ⟨true, 15⟩ ∧
    (scan_forward [0, 0] 0).found = false := by
  constructor
  · have h := (C4_scan_forward_amended boundary_signature 0 0).1
      le_rfl (by decide) (fun i h1 h2 => absurd h2 (by omega)) (by decide)
    simpa using h
  · refine (C4_scan_forward_amended [0, 0] 0 0).2 ?_
    intro i hc
    have h16 := isPrefixOf_length hc
    rw [show boundary_signature.length = 16 from rfl, List.length_drop] at h16
    simp only [List.length_cons, List.length_nil] at h16
    omega

/-- C4 counterexample: on a source consisting of exactly the 16-byte
boundary signature, the full occurrence starts at offset 0, but the scanner
positions the source at absolute offset 15, not at offset 0 + 16 as the
claim states. -/
theorem C4_counterexample :
    boundary_signature.isPrefixOf (boundary_signature.drop 0) = true ∧
    scan_forward boundary_signature 0 = ⟨true, 15⟩ ∧
    (scan_forward boundary_signature 0).pos ≠ 0 + 16 := by
  have h := scan_forward_found boundary_signature 0 0 le_rfl (by decide)
    (fun i h1 h2 => absurd h2 (by omega)) (by decide)
  refine ⟨by decide, by simpa using h, ?_⟩
  rw [h]
  decide

/-- C9: the scanner searches each 2^20-byte window independently with no
overlap, so a signature straddling the boundary between the first and second
window (here: starting 8 bytes before the window end) is never matched; the
scanner terminates reporting no match even though the data contains a full
occurrence of the signature. -/
theorem C9_window_straddle :
    boundary_signature.isPrefixOf
      ((List.replicate (blocklen - 8) 0 ++ boundary_signature).drop
        (blocklen - 8)) = true ∧
    scan_forward (List.replicate (blocklen - 8) 0 ++ boundary_signature) 0
      = ⟨false, blocklen + 8⟩ := by
  have hA : (List.replicate (blocklen - 8) 0).length = blocklen - 8 := by
    simp
  have h8 : 8 ≤ blocklen := by decide
  constructor
  · rw [drop_append_len _ _ _ hA.symm]
    decide
  · have hD : (List.replicate (blocklen - 8) 0
        ++ boundary_signature).length = blocklen + 8 := by
      simp only [List.length_append, hA,
        show boundary_signature.length = 16 from rfl]
      omega
    have hblock1 : ((List.replicate (blocklen - 8) 0
        ++ boundary_signature).drop 0).take blocklen
          = List.replicate (blocklen - 8) 0 ++ boundary_signature.take 8 := by
      rw [List.drop_zero]
      generalize hAg : List.replicate (blocklen - 8) 0 = A
      rw [show blocklen = A.length + 8 from by rw [← hAg, hA]; omega]
      rw [List.take_append]
    have hfs1 : findSub ((List.replicate (blocklen - 8) 0
        ++ boundary_signature.take 8)) boundary_signature = none := by
      rw [findSub_none_iff]
      intro i hc
      by_cases hi : i < blocklen - 8
      · rw [List.drop_append_eq_append_drop] at hc
        rw [List.drop_replicate] at hc
        rw [show blocklen - 8 - i = (blocklen - 8 - i - 1) + 1 from by omega,
          List.replicate_succ] at hc
        rw [show i - (List.replicate (blocklen - 8) 0).length = 0 from by
          rw [hA]; omega] at hc
        rw [List.drop_zero] at hc
        simp [boundary_signature, List.isPrefixOf] at hc
      · have h16 := isPrefixOf_length hc
        rw [show boundary_signature.length = 16 from rfl,
          List.length_drop, List.length_append, hA] at h16
        simp only [List.length_take,
          show boundary_signature.length = 16 from rfl] at h16
        omega
    have hfull1 : ¬ ((List.replicate (blocklen - 8) 0
        ++ boundary_signature.take 8)).length < blocklen := by
      simp only [List.length_append, hA, List.length_take,
        show boundary_signature.length = 16 from rfl]
      omega
    have hstep1 : scan_forward (List.replicate (blocklen - 8) 0
        ++ boundary_signature) 0
          = scan_forward (List.replicate (blocklen - 8) 0
            ++ boundary_signature) (0 + blocklen) := by
      apply scan_forward_eq_next
      · rw [hblock1]
        exact hfs1
      · rw [hblock1]
        exact hfull1
    have hdrop2 : (List.replicate (blocklen - 8) 0
        ++ boundary_signature).drop (0 + blocklen)
          = boundary_signature.drop 8 := by
      rw [Nat.zero_add]
      generalize hAg : List.replicate (blocklen - 8) 0 = A
      rw [show blocklen = A.length + 8 from by rw [← hAg, hA]; omega]
      rw [List.drop_append]
    have hblock2 : ((List.replicate (blocklen - 8) 0
        ++ boundary_signature).drop (0 + blocklen)).take blocklen
          = boundary_signature.drop 8 := by
      rw [hdrop2]
      apply List.take_of_length_le
      rw [List.length_drop, show boundary_signature.length = 16 from rfl]
      omega
    have hlen2 : (boundary_signature.drop 8).length = 8 := by decide
    have hfs2 : findSub (boundary_signature.drop 8) boundary_signature
        = none := by
      rw [findSub_none_iff]
      intro i hc
      have h16 := isPrefixOf_length hc
      rw [show boundary_signature.length = 16 from rfl, List.length_drop,
        hlen2] at h16
      omega
    have hstep2 : scan_forward (List.replicate (blocklen - 8) 0
        ++ boundary_signature) (0 + blocklen)
          = ⟨false, 0 + blocklen + 8⟩ := by
      have h := @scan_forward_eq_short (List.replicate (blocklen - 8) 0
          ++ boundary_signature) (0 + blocklen)
        (by rw [hblock2]; exact hfs2)
        (by rw [hblock2, hlen2]; decide)
      rw [h, hblock2, hlen2]
    rw [hstep1, hstep2]
    rw [Nat.zero_add]

/-- C2 (code bug): the claim requires selector 8 for every value of 2^32 and
above, and a round trip for the listed test values including 4294967296.
The source instead tests `i <= 0xFFFFFFFFF` (nine F digits, 2^36-1, a typo
for eight), so for 4294967296 = 2^32 it enters the 4-byte branch and
`struct.pack('<BL', 4, i)` raises `struct.error` (modelled as `none`): the
encoder fails instead of producing a selector-8 encoding.  For all the other
listed values the encoder succeeds, picks the smallest fitting selector of
the three tiers, and the decoder returns the original value. -/
theorem C2_varlen_encode_bug :
    write_varlen_int 4294967296 = none ∧
    ([0, 1, 254, 255, 256, 65535, 4294967295,
      9223372036854775808].all (fun v =>
        match write_varlen_int v with
        | some e => decide (read_varlen_int e 0 = .ok (v, e.length))
        | none => false)) = true ∧
    ([(0, 1), (1, 1), (254, 1), (255, 1), (256, 4), (65535, 4),
      (4294967295, 4), (9223372036854775808, 8)].all (fun p =>
        match write_varlen_int p.1 with
        | some e => decide (e.headD 0 = p.2)
        | none => false)) = true := by
  refine ⟨by decide, by decide, by decide⟩

/-- Abstract description of one chunk of a test container. -/
inductive CDesc where
  | header (sid : Nat) (doc : List Nat)
  | other (tag : Nat) (content : List Nat)
  deriving DecidableEq, Repr

/-- On-disk bytes of one described chunk: varlen total length, 2-byte LE tag,
then the payload (for a StreamHeader: 4-byte LE stream id then the document
bytes). -/
def buildC : CDesc → List Nat
  | .header sid doc =>
    encVarlen (doc.length + 6) ++ leBytes 2 2 ++ (leBytes 4 sid ++ doc)
  | .other tag content =>
    encVarlen (content.length + 2) ++ leBytes 2 tag ++ content

def buildCs : List CDesc → List Nat
  | [] => []
  | c :: cs => buildC c ++ buildCs cs

/-- Well-formedness of a described chunk for the traversal lemmas. -/
def wfC (classify : List Nat → Option Bool) : CDesc → Prop
  | .header sid doc =>
    sid < 2 ^ 32 ∧ doc.length + 6 < 2 ^ 64 ∧ (classify doc).isSome
  | .other tag content =>
    tag < 2 ^ 16 ∧ tag ≠ 2 ∧ tag ≠ 3 ∧ tag ≠ 6 ∧ content.length + 2 < 2 ^ 64

/-- The state transformation the locator performs for one chunk starting at
offset `pos`, mirroring main.py:223-273. -/
def stepSt (classify : List Nat → Option Bool) (pos : Nat) (st : LocSt) :
    CDesc → LocSt
  | .header sid doc =>
    let st1 :=
      if st.streamheaders_begin = none then
        { st with streamheaders_begin := some pos }
      else st
    match classify doc with
    | some true =>
      if st1.metadata_begin = none then
        { st1 with
          metadata_begin := some pos
          metadata_len := some ((buildC (.header sid doc)).length)
          metadata_content := some doc
          metadata_id := some sid }
      else
        { st1 with
          has_more_than_one := true
          other_ids := st1.other_ids ++ [sid] }
    | _ => { st1 with other_ids := st1.other_ids ++ [sid] }
  | .other _ _ => st

def foldSt (classify : List Nat → Option Bool) :
    Nat → LocSt → List CDesc → LocSt
  | _, st, [] => st
  | pos, st, c :: cs =>
    foldSt classify (pos + (buildC c).length) (stepSt classify pos st c) cs

/-- The terminal action of the traversal on a Samples/StreamFooter tag
(main.py:249-270): synthesize a default metadata location when none was
recorded, else stop with the recorded one. -/
def finishTerm (uid : String) (draws : List Nat) (st : LocSt) :
    Except Err LocSt :=
  if st.metadata_content = none then
    match pickFresh draws st.other_ids with
    | none => .error .diverge
    | some k =>
      .ok { st with
        metadata_content := some (strBytes (metadata_default uid))
        metadata_begin := st.streamheaders_begin
        metadata_len := some 0
        metadata_id := some k }
  else .ok st

theorem locLoop_step_other (classify : List Nat → Option Bool) (uid : String)
    (draws : List Nat) (filesize fuel : Nat) (pre suf : List Nat)
    (tag : Nat) (content : List Nat) (st : LocSt)
    (htag16 : tag < 2 ^ 16) (htag2 : tag ≠ 2) (htag3 : tag ≠ 3)
    (htag6 : tag ≠ 6) (hlen : content.length + 2 < 2 ^ 64) :
    locLoop classify uid draws
        (pre ++ buildC (.other tag content) ++ suf) filesize
        (fuel + 1) pre.length st
      = locLoop classify uid draws
        (pre ++ buildC (.other tag content) ++ suf) filesize
        fuel (pre.length + (buildC (.other tag content)).length) st := by
  have hdata : pre ++ buildC (.other tag content) ++ suf
      = pre ++ encVarlen (content.length + 2)
        ++ (leBytes 2 tag ++ (content ++ suf)) := by
    simp [buildC, List.append_assoc]
  rw [locLoop]
  rw [show read_varlen_int (pre ++ buildC (.other tag content) ++ suf)
        pre.length
      = .ok (content.length + 2,
          pre.length + (encVarlen (content.length + 2)).length) from by
    rw [hdata]
    exact read_varlen_enc pre _ _ (by omega)]
  have htb : hread (pre ++ buildC (.other tag content) ++ suf)
      (pre.length + (encVarlen (content.length + 2)).length) 2
        = (leBytes 2 tag,
           pre.length + (encVarlen (content.length + 2)).length + 2) := by
    apply hread_exact' _ (pre ++ encVarlen (content.length + 2))
      (leBytes 2 tag) (content ++ suf)
    · rw [hdata]; simp [List.append_assoc]
    · simp
    · simp [length_leBytes]
  have htag : leVal (leBytes 2 tag) = tag :=
    leVal_leBytes 2 tag (by norm_num; omega)
  have hskip : hreadInt (pre ++ buildC (.other tag content) ++ suf)
      (pre.length + (encVarlen (content.length + 2)).length + 2)
      (((content.length + 2 : Nat) : Int) - 2)
        = (content,
           pre.length + (encVarlen (content.length + 2)).length + 2
             + content.length) := by
    apply hreadInt_exact _ (pre ++ encVarlen (content.length + 2)
      ++ leBytes 2 tag) content suf
    · rw [hdata]; simp [List.append_assoc]
    · simp only [List.length_append, length_leBytes] <;> omega
    · push_cast; omega
  simp only [htb, htag, length_leBytes, hskip, eq_self_iff_true, if_true]
  rw [if_neg htag2, if_neg (show ¬ (tag = 3 ∨ tag = 6) from by omega)]
  have harg : pre.length + (encVarlen (content.length + 2)).length + 2
      + content.length
        = pre.length + (buildC (.other tag content)).length := by
    simp only [buildC, List.length_append, length_leBytes] <;> omega
  rw [harg]

theorem locLoop_step_header (classify : List Nat → Option Bool) (uid : String)
    (draws : List Nat) (filesize fuel : Nat) (pre suf : List Nat)
    (sid : Nat) (doc : List Nat) (st : LocSt)
    (hsid : sid < 2 ^ 32) (hdoc : doc.length + 6 < 2 ^ 64)
    (hcls : (classify doc).isSome) :
    locLoop classify uid draws
        (pre ++ buildC (.header sid doc) ++ suf) filesize
        (fuel + 1) pre.length st
      = locLoop classify uid draws
        (pre ++ buildC (.header sid doc) ++ suf) filesize
        fuel (pre.length + (buildC (.header sid doc)).length)
        (stepSt classify pre.length st (.header sid doc)) := by
  have hdata : pre ++ buildC (.header sid doc) ++ suf
      = pre ++ encVarlen (doc.length + 6)
        ++ (leBytes 2 2 ++ (leBytes 4 sid ++ (doc ++ suf))) := by
    simp [buildC, List.append_assoc]
  obtain ⟨b, hclass⟩ : ∃ b, classify doc = some b :=
    Option.isSome_iff_exists.mp hcls
  rw [locLoop]
  rw [show read_varlen_int (pre ++ buildC (.header sid doc) ++ suf)
        pre.length
      = .ok (doc.length + 6,
          pre.length + (encVarlen (doc.length + 6)).length) from by
    rw [hdata]
    exact read_varlen_enc pre _ _ (by omega)]
  have htb : hread (pre ++ buildC (.header sid doc) ++ suf)
      (pre.length + (encVarlen (doc.length + 6)).length) 2
        = (leBytes 2 2,
           pre.length + (encVarlen (doc.length + 6)).length + 2) := by
    apply hread_exact' _ (pre ++ encVarlen (doc.length + 6))
      (leBytes 2 2) (leBytes 4 sid ++ (doc ++ suf))
    · rw [hdata]; simp [List.append_assoc]
    · simp
    · simp [length_leBytes]
  have hib : hread (pre ++ buildC (.header sid doc) ++ suf)
      (pre.length + (encVarlen (doc.length + 6)).length + 2) 4
        = (leBytes 4 sid,
           pre.length + (encVarlen (doc.length + 6)).length + 2 + 4) := by
    apply hread_exact' _ (pre ++ encVarlen (doc.length + 6) ++ leBytes 2 2)
      (leBytes 4 sid) (doc ++ suf)
    · rw [hdata]; simp [List.append_assoc]
    · simp only [List.length_append, length_leBytes] <;> omega
    · simp [length_leBytes]
  have hxb : hreadInt (pre ++ buildC (.header sid doc) ++ suf)
      (pre.length + (encVarlen (doc.length + 6)).length + 2 + 4)
      (((doc.length + 6 : Nat) : Int) - 6)
        = (doc,
           pre.length + (encVarlen (doc.length + 6)).length + 2 + 4
             + doc.length) := by
    apply hreadInt_exact _ (pre ++ encVarlen (doc.length + 6)
      ++ leBytes 2 2 ++ leBytes 4 sid) doc suf
    · rw [hdata]; simp [List.append_assoc]
    · simp only [List.length_append, length_leBytes] <;> omega
    · push_cast; omega
  have htag2 : leVal (leBytes 2 2) = 2 := leVal_leBytes 2 2 (by norm_num)
  have hsidv : leVal (leBytes 4 sid) = sid :=
    leVal_leBytes 4 sid (by norm_num; omega)
  have harg : pre.length + (encVarlen (doc.length + 6)).length + 2 + 4
      + doc.length
        = pre.length + (buildC (.header sid doc)).length := by
    simp only [buildC, List.length_append, length_leBytes] <;> omega
  have hlen : pre.length + (encVarlen (doc.length + 6)).length + 2 + 4
      + doc.length - pre.length
        = (buildC (.header sid doc)).length := by
    simp only [buildC, List.length_append, length_leBytes] <;> omega
  simp only [htb, htag2, length_leBytes, hib, hsidv, hxb, hclass,
    eq_self_iff_true, if_true, stepSt, harg, hlen]
  cases b with
  | true =>
    by_cases hmb : (if st.streamheaders_begin = none then
        { st with streamheaders_begin := some pre.length }
      else st).metadata_begin = none
    · simp only [hmb, eq_self_iff_true, if_true, Nat.add_sub_cancel_left]
    · simp only [if_neg hmb, if_true]
  | false => rfl

theorem locLoop_step (classify : List Nat → Option Bool) (uid : String)
    (draws : List Nat) (filesize fuel : Nat) (pre suf : List Nat)
    (c : CDesc) (st : LocSt) (hwf : wfC classify c) :
    locLoop classify uid draws (pre ++ buildC c ++ suf) filesize
        (fuel + 1) pre.length st
      = locLoop classify uid draws (pre ++ buildC c ++ suf) filesize
        fuel (pre.length + (buildC c).length)
        (stepSt classify pre.length st c) := by
  cases c with
  | header sid doc =>
    obtain ⟨h1, h2, h3⟩ := hwf
    exact locLoop_step_header classify uid draws filesize fuel pre suf
      sid doc st h1 h2 h3
  | other tag content =>
    obtain ⟨h1, h2, h3, h4, h5⟩ := hwf
    exact locLoop_step_other classify uid draws filesize fuel pre suf
      tag content st h1 h2 h3 h4 h5

theorem locLoop_term (classify : List Nat → Option Bool) (uid : String)
    (draws : List Nat) (filesize fuel : Nat) (pre suf : List Nat)
    (t L : Nat) (st : LocSt) (ht : t = 3 ∨ t = 6) (hL : L < 2 ^ 64) :
    locLoop classify uid draws
        (pre ++ encVarlen L ++ (leBytes 2 t ++ suf)) filesize
        (fuel + 1) pre.length st
      = finishTerm uid draws st := by
  rw [locLoop]
  rw [read_varlen_enc pre (leBytes 2 t ++ suf) L hL]
  have htb : hread (pre ++ encVarlen L ++ (leBytes 2 t ++ suf))
      (pre.length + (encVarlen L).length) 2
        = (leBytes 2 t, pre.length + (encVarlen L).length + 2) := by
    apply hread_exact' _ (pre ++ encVarlen L) (leBytes 2 t) suf
    · simp [List.append_assoc]
    · simp
    · simp [length_leBytes]
  have htagv : leVal (leBytes 2 t) = t :=
    leVal_leBytes 2 t (by norm_num; omega)
  simp only [htb, htagv, length_leBytes, eq_self_iff_true, if_true]
  rw [if_neg (show t ≠ 2 from by omega), if_pos ht]
  rfl

theorem locLoop_chunks (classify : List Nat → Option Bool) (uid : String)
    (draws : List Nat) (filesize : Nat) :
    ∀ (cs : List CDesc) (fuel : Nat) (pre suf : List Nat) (st : LocSt),
      (∀ c ∈ cs, wfC classify c) →
      locLoop classify uid draws (pre ++ buildCs cs ++ suf) filesize
          (fuel + cs.length) pre.length st
        = locLoop classify uid draws (pre ++ buildCs cs ++ suf) filesize
          fuel (pre.length + (buildCs cs).length)
          (foldSt classify pre.length st cs) := by
  intro cs
  induction cs with
  | nil =>
    intro fuel pre suf st hwf
    simp [buildCs, foldSt]
  | cons c cs ih =>
    intro fuel pre suf st hwf
    have hsplit : pre ++ buildCs (c :: cs) ++ suf
        = pre ++ buildC c ++ (buildCs cs ++ suf) := by
      simp [buildCs, List.append_assoc]
    rw [hsplit]
    rw [show fuel + (c :: cs).length = (fuel + cs.length) + 1 from by
      simp only [List.length_cons]
      omega]
    rw [locLoop_step classify uid draws filesize (fuel + cs.length) pre
      (buildCs cs ++ suf) c st (hwf c (List.mem_cons_self c cs))]
    have := ih fuel (pre ++ buildC c) suf
      (stepSt classify pre.length st c)
      (fun c2 hc2 => hwf c2 (List.mem_cons_of_mem c hc2))
    rw [show (pre ++ buildC c) ++ buildCs cs ++ suf
        = pre ++ buildC c ++ (buildCs cs ++ suf) from by
      simp [List.append_assoc]] at this
    rw [show (pre ++ buildC c).length = pre.length + (buildC c).length from by
      simp] at this
    rw [this]
    rw [show foldSt classify pre.length st (c :: cs)
        = foldSt classify (pre.length + (buildC c).length)
          (stepSt classify pre.length st c) cs from rfl]
    rw [show pre.length + (buildCs (c :: cs)).length
        = pre.length + (buildC c).length + (buildCs cs).length from by
      simp [buildCs]; omega]

theorem buildC_length_ge (c : CDesc) : 4 ≤ (buildC c).length := by
  cases c with
  | header sid doc =>
    have := length_encVarlen_pos (doc.length + 6)
    simp only [buildC, List.length_append, length_leBytes]
    omega
  | other tag content =>
    have := length_encVarlen_pos (content.length + 2)
    simp only [buildC, List.length_append, length_leBytes]
    omega

theorem buildCs_length_ge (cs : List CDesc) :
    4 * cs.length ≤ (buildCs cs).length := by
  induction cs with
  | nil => simp [buildCs]
  | cons c cs ih =>
    have := buildC_length_ge c
    simp only [buildCs, List.length_append, List.length_cons]
    omega

/-- The locator on a well-formed built container: magic marker, the
described chunks, then a Samples/StreamFooter chunk and arbitrary trailing
bytes.  The result is the terminal action applied to the fold of the
per-chunk state transformations. -/
theorem gmc_built (classify : List Nat → Option Bool) (uid : String)
    (draws : List Nat) (cs : List CDesc) (t L : Nat) (suf : List Nat)
    (oldpos : Nat) (hwf : ∀ c ∈ cs, wfC classify c)
    (ht : t = 3 ∨ t = 6) (hL : L < 2 ^ 64) :
    get_metadata_content classify uid draws
        (xdfMagic ++ buildCs cs ++ (encVarlen L ++ (leBytes 2 t ++ suf)))
        oldpos
      = (match finishTerm uid draws (foldSt classify 4 initSt cs) with
         | .error e => .error e
         | .ok st => .ok ⟨st.metadata_content, st.metadata_begin,
             st.metadata_len, st.metadata_id, st.has_more_than_one,
             oldpos⟩) := by
  have hmagic : hread (xdfMagic ++ buildCs cs
      ++ (encVarlen L ++ (leBytes 2 t ++ suf))) 0 4
        = (xdfMagic, 0 + 4) := by
    apply hread_exact' _ [] xdfMagic
      (buildCs cs ++ (encVarlen L ++ (leBytes 2 t ++ suf)))
    · simp [List.append_assoc]
    · rfl
    · rfl
  have hdl : (xdfMagic ++ buildCs cs
      ++ (encVarlen L ++ (leBytes 2 t ++ suf))).length
        = 4 + (buildCs cs).length
          + ((encVarlen L).length + (2 + suf.length)) := by
    simp only [List.length_append, length_leBytes, xdfMagic,
      List.length_cons, List.length_nil] <;> omega
  have h4cs := buildCs_length_ge cs
  have hfuel : (xdfMagic ++ buildCs cs
      ++ (encVarlen L ++ (leBytes 2 t ++ suf))).length + 1
        = (((xdfMagic ++ buildCs cs
            ++ (encVarlen L ++ (leBytes 2 t ++ suf))).length - cs.length)
           + 1) + cs.length := by
    omega
  rw [get_metadata_content]
  simp only [hmagic, eq_self_iff_true, if_true, Nat.zero_add]
  rw [hfuel]
  have hchunks := locLoop_chunks classify uid draws
    (xdfMagic ++ buildCs cs ++ (encVarlen L ++ (leBytes 2 t ++ suf))).length
    cs
    (((xdfMagic ++ buildCs cs
        ++ (encVarlen L ++ (leBytes 2 t ++ suf))).length - cs.length) + 1)
    xdfMagic (encVarlen L ++ (leBytes 2 t ++ suf)) initSt hwf
  rw [show (xdfMagic.length : Nat) = 4 from rfl] at hchunks
  rw [hchunks]
  have hterm := locLoop_term classify uid draws
    (xdfMagic ++ buildCs cs ++ (encVarlen L ++ (leBytes 2 t ++ suf))).length
    ((xdfMagic ++ buildCs cs
        ++ (encVarlen L ++ (leBytes 2 t ++ suf))).length - cs.length)
    (xdfMagic ++ buildCs cs) suf t L
    (foldSt classify 4 initSt cs) ht hL
  rw [show (xdfMagic ++ buildCs cs) ++ encVarlen L ++ (leBytes 2 t ++ suf)
      = xdfMagic ++ buildCs cs ++ (encVarlen L ++ (leBytes 2 t ++ suf))
    from by simp [List.append_assoc]] at hterm
  rw [show (xdfMagic ++ buildCs cs).length = 4 + (buildCs cs).length
    from by
      simp only [List.length_append, xdfMagic, List.length_cons,
        List.length_nil] <;> omega] at hterm
  rw [hterm]

def isOther : CDesc → Prop
  | .header _ _ => False
  | .other _ _ => True

/-- A described chunk that does not match the metadata name/type test. -/
def notMeta (classify : List Nat → Option Bool) : CDesc → Prop
  | .header _ doc => classify doc ≠ some true
  | .other _ _ => True

theorem foldSt_append (classify : List Nat → Option Bool)
    (cs₁ cs₂ : List CDesc) : ∀ (pos : Nat) (st : LocSt),
    foldSt classify pos st (cs₁ ++ cs₂)
      = foldSt classify (pos + (buildCs cs₁).length)
        (foldSt classify pos st cs₁) cs₂ := by
  induction cs₁ with
  | nil => intro pos st; simp [foldSt, buildCs]
  | cons c cs ih =>
    intro pos st
    simp only [List.cons_append, foldSt, buildCs, List.length_append,
      List.append_eq]
    rw [ih]
    congr 1
    omega

theorem foldSt_others (classify : List Nat → Option Bool)
    (cs : List CDesc) (hoth : ∀ c ∈ cs, isOther c) :
    ∀ (pos : Nat) (st : LocSt), foldSt classify pos st cs = st := by
  induction cs with
  | nil => intro pos st; rfl
  | cons c cs ih =>
    intro pos st
    match c, hoth c (List.mem_cons_self c cs) with
    | .other tag content, _ =>
      simp only [foldSt, stepSt]
      exact ih (fun c2 hc2 => hoth c2 (List.mem_cons_of_mem _ hc2)) _ _

theorem hdrSt1_fields (pos : Nat) (st : LocSt) :
    (if st.streamheaders_begin = none then
        { st with streamheaders_begin := some pos }
      else st).metadata_begin = st.metadata_begin ∧
    (if st.streamheaders_begin = none then
        { st with streamheaders_begin := some pos }
      else st).metadata_len = st.metadata_len ∧
    (if st.streamheaders_begin = none then
        { st with streamheaders_begin := some pos }
      else st).metadata_content = st.metadata_content ∧
    (if st.streamheaders_begin = none then
        { st with streamheaders_begin := some pos }
      else st).metadata_id = st.metadata_id ∧
    (if st.streamheaders_begin = none then
        { st with streamheaders_begin := some pos }
      else st).other_ids = st.other_ids ∧
    (if st.streamheaders_begin = none then
        { st with streamheaders_begin := some pos }
      else st).has_more_than_one = st.has_more_than_one := by
  by_cases hsh : st.streamheaders_begin = none <;> simp [hsh]

theorem stepSt_preserve (classify : List Nat → Option Bool) (pos : Nat)
    (st : LocSt) (c : CDesc) (h : st.metadata_begin ≠ none) :
    (stepSt classify pos st c).metadata_begin = st.metadata_begin ∧
    (stepSt classify pos st c).metadata_len = st.metadata_len ∧
    (stepSt classify pos st c).metadata_content = st.metadata_content ∧
    (stepSt classify pos st c).metadata_id = st.metadata_id := by
  cases c with
  | other tag content => exact ⟨rfl, rfl, rfl, rfl⟩
  | header sid doc =>
    obtain ⟨f1, f2, f3, f4, f5, f6⟩ := hdrSt1_fields pos st
    simp only [stepSt]
    cases hcd : classify doc with
    | none => exact ⟨f1, f2, f3, f4⟩
    | some b =>
      cases b with
      | false => exact ⟨f1, f2, f3, f4⟩
      | true =>
        rw [if_neg (by rw [f1]; exact h)]
        exact ⟨f1, f2, f3, f4⟩

theorem stepSt_more (classify : List Nat → Option Bool) (pos : Nat)
    (st : LocSt) (c : CDesc) (h : st.has_more_than_one = true) :
    (stepSt classify pos st c).has_more_than_one = true := by
  cases c with
  | other tag content => exact h
  | header sid doc =>
    obtain ⟨f1, f2, f3, f4, f5, f6⟩ := hdrSt1_fields pos st
    simp only [stepSt]
    cases hcd : classify doc with
    | none => rw [f6]; exact h
    | some b =>
      cases b with
      | false => rw [f6]; exact h
      | true =>
        by_cases hmb : (if st.streamheaders_begin = none then
            { st with streamheaders_begin := some pos }
          else st).metadata_begin = none
        · rw [if_pos hmb, f6]; exact h
        · rw [if_neg hmb]

theorem stepSt_mem (classify : List Nat → Option Bool) (pos : Nat)
    (st : LocSt) (c : CDesc) (x : Nat) (h : x ∈ st.other_ids) :
    x ∈ (stepSt classify pos st c).other_ids := by
  cases c with
  | other tag content => exact h
  | header sid doc =>
    obtain ⟨f1, f2, f3, f4, f5, f6⟩ := hdrSt1_fields pos st
    simp only [stepSt]
    cases hcd : classify doc with
    | none =>
      rw [f5]
      exact List.mem_append_left _ h
    | some b =>
      cases b with
      | false =>
        rw [f5]
        exact List.mem_append_left _ h
      | true =>
        by_cases hmb : (if st.streamheaders_begin = none then
            { st with streamheaders_begin := some pos }
          else st).metadata_begin = none
        · rw [if_pos hmb, f5]; exact h
        · rw [if_neg hmb]
          rw [f5]
          exact List.mem_append_left _ h

theorem foldSt_preserve (classify : List Nat → Option Bool) (cs : List CDesc) :
    ∀ (pos : Nat) (st : LocSt), st.metadata_begin ≠ none →
    (foldSt classify pos st cs).metadata_begin = st.metadata_begin ∧
    (foldSt classify pos st cs).metadata_len = st.metadata_len ∧
    (foldSt classify pos st cs).metadata_content = st.metadata_content ∧
    (foldSt classify pos st cs).metadata_id = st.metadata_id := by
  induction cs with
  | nil => intro pos st h; exact ⟨rfl, rfl, rfl, rfl⟩
  | cons c cs ih =>
    intro pos st h
    obtain ⟨h1, h2, h3, h4⟩ := stepSt_preserve classify pos st c h
    obtain ⟨g1, g2, g3, g4⟩ := ih (pos + (buildC c).length)
      (stepSt classify pos st c) (by rw [h1]; exact h)
    exact ⟨by rw [foldSt, g1, h1], by rw [foldSt, g2, h2],
      by rw [foldSt, g3, h3], by rw [foldSt, g4, h4]⟩

theorem foldSt_more (classify : List Nat → Option Bool) (cs : List CDesc) :
    ∀ (pos : Nat) (st : LocSt), st.has_more_than_one = true →
    (foldSt classify pos st cs).has_more_than_one = true := by
  induction cs with
  | nil => intro pos st h; exact h
  | cons c cs ih =>
    intro pos st h
    exact ih _ _ (stepSt_more classify pos st c h)

theorem foldSt_mem (classify : List Nat → Option Bool) (cs : List CDesc) :
    ∀ (pos : Nat) (st : LocSt) (x : Nat), x ∈ st.other_ids →
    x ∈ (foldSt classify pos st cs).other_ids := by
  induction cs with
  | nil => intro pos st x h; exact h
  | cons c cs ih =>
    intro pos st x h
    exact ih _ _ _ (stepSt_mem classify pos st c x h)

theorem foldSt_notMeta (classify : List Nat → Option Bool) (cs : List CDesc) :
    ∀ (pos : Nat) (st : LocSt), (∀ c ∈ cs, notMeta classify c) →
    (foldSt classify pos st cs).metadata_begin = st.metadata_begin ∧
    (foldSt classify pos st cs).metadata_len = st.metadata_len ∧
    (foldSt classify pos st cs).metadata_content = st.metadata_content ∧
    (foldSt classify pos st cs).metadata_id = st.metadata_id ∧
    (foldSt classify pos st cs).has_more_than_one = st.has_more_than_one := by
  induction cs with
  | nil => intro pos st _; exact ⟨rfl, rfl, rfl, rfl, rfl⟩
  | cons c cs ih =>
    intro pos st hnm
    have hst : (stepSt classify pos st c).metadata_begin = st.metadata_begin ∧
        (stepSt classify pos st c).metadata_len = st.metadata_len ∧
        (stepSt classify pos st c).metadata_content = st.metadata_content ∧
        (stepSt classify pos st c).metadata_id = st.metadata_id ∧
        (stepSt classify pos st c).has_more_than_one
          = st.has_more_than_one := by
      cases c with
      | other tag content => exact ⟨rfl, rfl, rfl, rfl, rfl⟩
      | header sid doc =>
        have hc := hnm _ (List.mem_cons_self _ cs)
        simp only [notMeta] at hc
        obtain ⟨f1, f2, f3, f4, f5, f6⟩ := hdrSt1_fields pos st
        simp only [stepSt]
        cases hcd : classify doc with
        | none => exact ⟨f1, f2, f3, f4, f6⟩
        | some b =>
          cases b with
          | false => exact ⟨f1, f2, f3, f4, f6⟩
          | true => exact absurd hcd hc
    obtain ⟨h1, h2, h3, h4, h5⟩ := hst
    obtain ⟨g1, g2, g3, g4, g5⟩ := ih (pos + (buildC c).length)
      (stepSt classify pos st c)
      (fun c2 hc2 => hnm c2 (List.mem_cons_of_mem _ hc2))
    exact ⟨by rw [foldSt, g1, h1], by rw [foldSt, g2, h2],
      by rw [foldSt, g3, h3], by rw [foldSt, g4, h4],
      by rw [foldSt, g5, h5]⟩

/-- C3 (amended): when the traversal reaches a Samples or StreamFooter chunk
without having recorded a metadata chunk and without having seen any
StreamHeader chunk, the locator synthesizes a location with the default
document content, byte length 0, and a stream id drawn from the id
generator that is not in the (empty) set of other stream ids — but its
begin offset is unset (Python `None`, the never-assigned
`streamheaders_begin`), not the begin position of the current chunk. -/
theorem C3_synthesized_location_amended (classify : List Nat → Option Bool)
    (uid : String) (d : Nat) (draws : List Nat) (cs : List CDesc)
    (t L : Nat) (suf : List Nat) (oldpos : Nat)
    (hwf : ∀ c ∈ cs, wfC classify c) (hoth : ∀ c ∈ cs, isOther c)
    (ht : t = 3 ∨ t = 6) (hL : L < 2 ^ 64) :
    get_metadata_content classify uid (d :: draws)
        (xdfMagic ++ buildCs cs ++ (encVarlen L ++ (leBytes 2 t ++ suf)))
        oldpos
      = .ok ⟨some (strBytes (metadata_default uid)), none, some 0, some d,
             false, oldpos⟩ := by
  rw [gmc_built classify uid (d :: draws) cs t L suf oldpos hwf ht hL]
  rw [foldSt_others classify cs hoth]
  rfl

theorem C3_amended_witness :
    get_metadata_content (fun _ => some false) "u" [10000]
        (xdfMagic ++ buildCs [] ++ (encVarlen 2 ++ (leBytes 2 3 ++ [])))
        0
      = .ok ⟨some (strBytes (metadata_default "u")), none, some 0,
             some 10000, false, 0⟩ :=
  C3_synthesized_location_amended (fun _ => some false) "u" 10000 [] [] 3 2
    [] 0 (fun c hc => absurd hc (List.not_mem_nil c))
    (fun c hc => absurd hc (List.not_mem_nil c)) (Or.inl rfl) (by norm_num)

/-- C3 counterexample: on the container consisting of the magic marker
followed by one Samples chunk at offset 4 (and nothing else), the locator
returns a synthesized location whose begin offset is `none`, not `some 4`
(the begin position of the Samples chunk) as the claim states. -/
theorem C3_counterexample :
    (get_metadata_content (fun _ => some false) "u" [10000]
        (xdfMagic ++ [1, 2, 3, 0]) 0).map (fun r => r.metadata_begin)
      = .ok none ∧
    (get_metadata_content (fun _ => some false) "u" [10000]
        (xdfMagic ++ [1, 2, 3, 0]) 0).map (fun r => r.metadata_begin)
      ≠ .ok (some 4) := by
  refine ⟨rfl, ?_⟩
  intro hc
  rw [show (get_metadata_content (fun _ => some false) "u" [10000]
      (xdfMagic ++ [1, 2, 3, 0]) 0).map (fun r => r.metadata_begin)
    = .ok none from rfl] at hc
  exact Option.noConfusion (Except.ok.inj hc)

/-- C10: the locator never validates the `length >= 2` chunk invariant; for
a chunk whose decoded length is 0 or 1 with a tag other than StreamHeader,
Samples and StreamFooter, the skip step computes a negative byte count,
`fh.read` consumes everything to end of input, and the traversal then
terminates normally with nothing found — for every possible remainder of
the file, including remainders that contain a metadata chunk. -/
theorem locLoop_eof (classify : List Nat → Option Bool) (uid : String)
    (draws data : List Nat) (filesize fuel pos : Nat) (st : LocSt)
    (hfuel : 1 ≤ fuel) (hpos : data.length ≤ pos)
    (hguard : ¬ ((pos : Int) < (filesize : Int) - 1024)) :
    locLoop classify uid draws data filesize fuel pos st = .ok st := by
  obtain ⟨k, rfl⟩ : ∃ k, fuel = k + 1 := ⟨fuel - 1, by omega⟩
  rw [locLoop]
  rw [show read_varlen_int data pos = .error pos from by
    rw [read_varlen_int]
    have hr : hread data pos 1 = ([], pos) := by
      rw [hread, List.drop_eq_nil_of_le hpos]
      rfl
    simp [hr]]
  simp only [if_neg hguard]

theorem C10_short_length_consumes_rest (classify : List Nat → Option Bool)
    (uid : String) (draws : List Nat) (rest : List Nat) (c t oldpos : Nat)
    (hc : c = 0 ∨ c = 1) (ht16 : t < 2 ^ 16) (ht2 : t ≠ 2) (ht3 : t ≠ 3)
    (ht6 : t ≠ 6) :
    get_metadata_content classify uid draws
        (xdfMagic ++ ([1, c] ++ (leBytes 2 t ++ rest))) oldpos
      = .ok ⟨none, none, none, none, false, oldpos⟩ := by
  have hmagic : hread (xdfMagic ++ ([1, c] ++ (leBytes 2 t ++ rest))) 0 4
      = (xdfMagic, 0 + 4) := by
    apply hread_exact' _ [] xdfMagic ([1, c] ++ (leBytes 2 t ++ rest))
    · simp [List.append_assoc]
    · rfl
    · rfl
  rw [get_metadata_content]
  simp only [hmagic, eq_self_iff_true, if_true, Nat.zero_add]
  have hlen : (xdfMagic ++ ([1, c] ++ (leBytes 2 t ++ rest))).length
      = 8 + rest.length := by
    simp only [List.length_append, xdfMagic, List.length_cons,
      List.length_nil, length_leBytes]
    omega
  rw [hlen]
  have henc : [1, c] = encVarlen c := by
    rw [encVarlen, if_pos (show c ≤ 255 from by omega)]
  rw [show (8 + rest.length + 1 : Nat) = (8 + rest.length) + 1 from rfl]
  rw [locLoop]
  rw [show read_varlen_int (xdfMagic ++ ([1, c] ++ (leBytes 2 t ++ rest))) 4
      = .ok (c, 4 + (encVarlen c).length) from by
    rw [henc, show (4 : Nat) = xdfMagic.length from rfl]
    exact read_varlen_enc xdfMagic (leBytes 2 t ++ rest) c (by omega)]
  have htb : hread (xdfMagic ++ ([1, c] ++ (leBytes 2 t ++ rest)))
      (4 + (encVarlen c).length) 2
        = (leBytes 2 t, 4 + (encVarlen c).length + 2) := by
    apply hread_exact' _ (xdfMagic ++ [1, c]) (leBytes 2 t) rest
    · rw [henc]; simp [List.append_assoc]
    · rw [henc]
      simp only [List.length_append, xdfMagic, List.length_cons,
        List.length_nil] <;> omega
    · simp [length_leBytes]
  have htagv : leVal (leBytes 2 t) = t := leVal_leBytes 2 t (by norm_num; omega)
  have hencl : (encVarlen c).length = 2 := by rw [← henc]; rfl
  have hdrop : (xdfMagic ++ ([1, c] ++ (leBytes 2 t ++ rest))).drop
      (4 + (encVarlen c).length + 2) = rest := by
    rw [show xdfMagic ++ ([1, c] ++ (leBytes 2 t ++ rest))
        = (xdfMagic ++ ([1, c] ++ leBytes 2 t)) ++ rest from by
      simp [List.append_assoc]]
    apply drop_append_len
    rw [hencl]
    simp only [List.length_append, xdfMagic, List.length_cons,
      List.length_nil, length_leBytes] <;> omega
  have hskip : hreadInt (xdfMagic ++ ([1, c] ++ (leBytes 2 t ++ rest)))
      (4 + (encVarlen c).length + 2) ((c : Int) - 2)
        = (rest, 4 + (encVarlen c).length + 2 + rest.length) := by
    rw [hreadInt_neg _ _ _ (by omega), hdrop]
  simp only [htb, htagv, length_leBytes, hskip, eq_self_iff_true, if_true]
  rw [if_neg ht2, if_neg (show ¬ (t = 3 ∨ t = 6) from by omega)]
  rw [locLoop_eof classify uid draws
    (xdfMagic ++ ([1, c] ++ (leBytes 2 t ++ rest))) (8 + rest.length)
    (8 + rest.length) (4 + (encVarlen c).length + 2 + rest.length) initSt
    (by omega) (by rw [hlen, hencl] <;> omega)
    (by rw [hencl] <;> (push_cast; omega))]
  rfl

theorem C10_witness :
    get_metadata_content (fun d => some (d == [65])) "u" [10000]
        (xdfMagic ++ ([1, 0] ++ (leBytes 2 7
          ++ (buildC (.header 5 [65]) ++ (encVarlen 2 ++ (leBytes 2 3
            ++ [])))))) 0
      = .ok ⟨none, none, none, none, false, 0⟩ :=
  C10_short_length_consumes_rest (fun d => some (d == [65])) "u" [10000]
    (buildC (.header 5 [65]) ++ (encVarlen 2 ++ (leBytes 2 3 ++ []))) 0 7 0
    (Or.inl rfl) (by norm_num) (by norm_num) (by norm_num) (by norm_num)

/-- C5: whenever the locator returns normally, the cursor of the source
handle after the call equals the cursor position the handle had before the
call (main.py:176 saves it, main.py:280 restores it on every normal return
path), regardless of how far the traversal read. -/
theorem C5_cursor_restored (classify : List Nat → Option Bool) (uid : String)
    (draws data : List Nat) (oldpos : Nat) (r : GMCResult)
    (h : get_metadata_content classify uid draws data oldpos = .ok r) :
    r.final_pos = oldpos := by
  rw [get_metadata_content] at h
  by_cases hm : (hread data 0 4).1 = xdfMagic
  · rw [if_pos hm] at h
    cases hloc : locLoop classify uid draws data data.length
        (data.length + 1) (hread data 0 4).2 initSt with
    | error e =>
      rw [hloc] at h
      exact absurd h (by simp)
    | ok st =>
      rw [hloc] at h
      have := Except.ok.inj h
      rw [← this]
  · rw [if_neg hm] at h
    exact absurd h (by simp)

theorem C5_witness :
    (⟨some (strBytes (metadata_default "u")), none, some 0, some 10000,
      false, 3⟩ : GMCResult).final_pos = 3 :=
  C5_cursor_restored (fun _ => some false) "u" [10000]
    (xdfMagic ++ [1, 2, 3, 0]) 3 _ (by rfl)

/-- C7: for every input whose first 4 bytes are not the magic marker
`XDF:`, processing the file fails with the InvalidContainer error
(main.py:182-183), the error propagates out of `process_file` to the
caller, and no output byte content is produced. -/
theorem C7_bad_magic (classify : List Nat → Option Bool) (uid : String)
    (draws : List Nat) (transform : List Nat → List Nat) (data : List Nat)
    (h : data.take 4 ≠ xdfMagic) :
    process_file classify uid draws transform data
      = .error .invalidContainer := by
  rw [process_file, get_metadata_content]
  rw [if_neg (show ¬ (hread data 0 4).1 = xdfMagic from by
    simpa [hread] using h)]

theorem C7_witness :
    process_file (fun _ => some false) "u" [10000] (fun x => x) [0, 0, 0, 0]
      = .error .invalidContainer :=
  C7_bad_magic (fun _ => some false) "u" [10000] (fun x => x) [0, 0, 0, 0]
    (by decide)

/-- C6: if the content returned by the transform collaborator equals the
located metadata content, the output is a byte-for-byte duplicate of the
entire input (main.py:414-417 `shutil.copyfile`), with no chunk framing
performed. -/
theorem C6_noop_full_copy (classify : List Nat → Option Bool) (uid : String)
    (draws : List Nat) (transform : List Nat → List Nat) (data : List Nat)
    (r : GMCResult) (c : List Nat)
    (hloc : get_metadata_content classify uid draws data 0 = .ok r)
    (hcont : r.metadata_content = some c)
    (hid : transform c = c) :
    process_file classify uid draws transform data = .ok data := by
  rw [process_file, hloc]
  simp only [hcont, hid, ne_eq, eq_self_iff_true, not_true_eq_false,
    if_false]

theorem C6_witness :
    process_file (fun d => some (d == [65])) "u" [10000] (fun x => x)
        (xdfMagic ++ buildC (.header 7 [65])
          ++ (encVarlen 2 ++ (leBytes 2 3 ++ [])))
      = .ok (xdfMagic ++ buildC (.header 7 [65])
          ++ (encVarlen 2 ++ (leBytes 2 3 ++ []))) :=
  C6_noop_full_copy (fun d => some (d == [65])) "u" [10000] (fun x => x)
    (xdfMagic ++ buildC (.header 7 [65])
      ++ (encVarlen 2 ++ (leBytes 2 3 ++ [])))
    ⟨some [65], some 4, some 9, some 7, false, 0⟩ [65]
    (by rfl) rfl rfl

/-- C1: when the transform returns content different from the located one,
the splice writer produces exactly: the input bytes before the located span,
verbatim; one StreamHeader chunk framing the stream id as 4 LE bytes plus
the new content bytes; then the input bytes from the end of the span to the
end of the file, verbatim — so every chunk outside the span, including
chunks with unrecognized tags, is reproduced byte-identically. -/
theorem C1_splice_exact (classify : List Nat → Option Bool) (uid : String)
    (draws : List Nat) (transform : List Nat → List Nat) (data : List Nat)
    (r : GMCResult) (c nc ck : List Nat) (b l i : Nat)
    (hloc : get_metadata_content classify uid draws data 0 = .ok r)
    (hcont : r.metadata_content = some c)
    (hb : r.metadata_begin = some b) (hl : r.metadata_len = some l)
    (hid : r.metadata_id = some i)
    (htr : transform c = nc) (hne : nc ≠ c)
    (hi : i ≤ 0xFFFFFFFF)
    (hck : write_chunk 2 (leBytes 4 i ++ nc) = some ck)
    (hbl : b + l ≤ data.length) :
    process_file classify uid draws transform data
      = .ok (data.take b ++ ck ++ data.drop (b + l)) := by
  have hc1 : copy_range data 0 ((b : Nat) : Int) = (data.take b, 0 + b) := by
    rw [copy_range_exact data 0 (b : Int) (by positivity) (by
      rw [show ((b : Nat) : Int).toNat = b from by omega]
      omega)]
    rw [show ((b : Nat) : Int).toNat = b from by omega]
    simp [List.drop_zero]
  have hc2 : copy_range data (b + l)
      ((data.length : Int) - (b : Int) - (l : Int))
        = (data.drop (b + l), (b + l) + (data.length - (b + l))) := by
    rw [copy_range_exact data (b + l) _ (by omega) (by
      rw [show ((data.length : Int) - (b : Int) - (l : Int)).toNat
          = data.length - (b + l) from by omega]
      omega)]
    rw [show ((data.length : Int) - (b : Int) - (l : Int)).toNat
        = data.length - (b + l) from by omega]
    rw [List.take_of_length_le (by rw [List.length_drop])]
  rw [process_file, hloc]
  simp only [hcont, hb, hl, hid, htr]
  rw [if_pos hne]
  simp only [hc1, hc2]
  rw [if_pos hi, hck]

theorem C1_witness :
    process_file (fun d => some (d == [65])) "u" [10000] (fun _ => [66])
        (xdfMagic ++ buildC (.header 7 [65])
          ++ (encVarlen 2 ++ (leBytes 2 3 ++ [])))
      = .ok ((xdfMagic ++ buildC (.header 7 [65])
            ++ (encVarlen 2 ++ (leBytes 2 3 ++ []))).take 4
          ++ [1, 7, 2, 0, 7, 0, 0, 0, 66]
          ++ (xdfMagic ++ buildC (.header 7 [65])
            ++ (encVarlen 2 ++ (leBytes 2 3 ++ []))).drop (4 + 9)) :=
  C1_splice_exact (fun d => some (d == [65])) "u" [10000] (fun _ => [66])
    (xdfMagic ++ buildC (.header 7 [65])
      ++ (encVarlen 2 ++ (leBytes 2 3 ++ [])))
    ⟨some [65], some 4, some 9, some 7, false, 0⟩
    [65] [66] [1, 7, 2, 0, 7, 0, 0, 0, 66] 4 9 7
    (by rfl) rfl rfl rfl rfl rfl (by decide) (by norm_num) (by rfl)
    (by decide)

theorem stepSt_first_fields (classify : List Nat → Option Bool) (pos : Nat)
    (st : LocSt) (sid : Nat) (doc : List Nat)
    (hcd : classify doc = some true) (hmb : st.metadata_begin = none) :
    (stepSt classify pos st (.header sid doc)).metadata_begin = some pos ∧
    (stepSt classify pos st (.header sid doc)).metadata_len
      = some ((buildC (.header sid doc)).length) ∧
    (stepSt classify pos st (.header sid doc)).metadata_content = some doc ∧
    (stepSt classify pos st (.header sid doc)).metadata_id = some sid ∧
    (stepSt classify pos st (.header sid doc)).has_more_than_one
      = st.has_more_than_one := by
  obtain ⟨f1, f2, f3, f4, f5, f6⟩ := hdrSt1_fields pos st
  simp only [stepSt, hcd]
  rw [if_pos (by rw [f1]; exact hmb)]
  exact ⟨rfl, rfl, rfl, rfl, f6⟩

theorem stepSt_dup_fields (classify : List Nat → Option Bool) (pos : Nat)
    (st : LocSt) (sid : Nat) (doc : List Nat)
    (hcd : classify doc = some true) (hmb : st.metadata_begin ≠ none) :
    (stepSt classify pos st (.header sid doc)).has_more_than_one = true ∧
    sid ∈ (stepSt classify pos st (.header sid doc)).other_ids := by
  obtain ⟨f1, f2, f3, f4, f5, f6⟩ := hdrSt1_fields pos st
  simp only [stepSt, hcd]
  rw [if_neg (by rw [f1]; exact hmb)]
  exact ⟨rfl, List.mem_append_right _ (List.mem_singleton_self sid)⟩

theorem foldSt_dup_shape (classify : List Nat → Option Bool)
    (cs₁ cs₂ cs₃ : List CDesc) (sid₁ sid₂ : Nat) (doc₁ doc₂ : List Nat)
    (hnm₁ : ∀ c ∈ cs₁, notMeta classify c)
    (hm₁ : classify doc₁ = some true) (hm₂ : classify doc₂ = some true)
    (pos : Nat) (st : LocSt) (h1 : st.metadata_begin = none) :
    (foldSt classify pos st
        (cs₁ ++ .header sid₁ doc₁ :: (cs₂ ++ .header sid₂ doc₂ :: cs₃))
      ).metadata_begin = some (pos + (buildCs cs₁).length) ∧
    (foldSt classify pos st
        (cs₁ ++ .header sid₁ doc₁ :: (cs₂ ++ .header sid₂ doc₂ :: cs₃))
      ).metadata_len = some ((buildC (.header sid₁ doc₁)).length) ∧
    (foldSt classify pos st
        (cs₁ ++ .header sid₁ doc₁ :: (cs₂ ++ .header sid₂ doc₂ :: cs₃))
      ).metadata_content = some doc₁ ∧
    (foldSt classify pos st
        (cs₁ ++ .header sid₁ doc₁ :: (cs₂ ++ .header sid₂ doc₂ :: cs₃))
      ).metadata_id = some sid₁ ∧
    (foldSt classify pos st
        (cs₁ ++ .header sid₁ doc₁ :: (cs₂ ++ .header sid₂ doc₂ :: cs₃))
      ).has_more_than_one = true ∧
    sid₂ ∈ (foldSt classify pos st
        (cs₁ ++ .header sid₁ doc₁ :: (cs₂ ++ .header sid₂ doc₂ :: cs₃))
      ).other_ids := by
  rw [foldSt_append]
  simp only [foldSt]
  rw [foldSt_append]
  simp only [foldSt]
  obtain ⟨a1, a2, a3, a4, a5⟩ := foldSt_notMeta classify cs₁ pos st hnm₁
  obtain ⟨b1, b2, b3, b4, b5⟩ := stepSt_first_fields classify
    (pos + (buildCs cs₁).length) (foldSt classify pos st cs₁) sid₁ doc₁
    hm₁ (by rw [a1]; exact h1)
  obtain ⟨c1, c2, c3, c4⟩ := foldSt_preserve classify cs₂
    (pos + (buildCs cs₁).length + (buildC (.header sid₁ doc₁)).length)
    (stepSt classify (pos + (buildCs cs₁).length)
      (foldSt classify pos st cs₁) (.header sid₁ doc₁))
    (by rw [b1]; exact Option.noConfusion)
  obtain ⟨d1, d2, d3, d4⟩ := stepSt_preserve classify
    (pos + (buildCs cs₁).length + (buildC (.header sid₁ doc₁)).length
      + (buildCs cs₂).length)
    (foldSt classify
      (pos + (buildCs cs₁).length + (buildC (.header sid₁ doc₁)).length)
      (stepSt classify (pos + (buildCs cs₁).length)
        (foldSt classify pos st cs₁) (.header sid₁ doc₁)) cs₂)
    (.header sid₂ doc₂)
    (by rw [c1, b1]; exact Option.noConfusion)
  obtain ⟨e1, e2⟩ := stepSt_dup_fields classify
    (pos + (buildCs cs₁).length + (buildC (.header sid₁ doc₁)).length
      + (buildCs cs₂).length)
    (foldSt classify
      (pos + (buildCs cs₁).length + (buildC (.header sid₁ doc₁)).length)
      (stepSt classify (pos + (buildCs cs₁).length)
        (foldSt classify pos st cs₁) (.header sid₁ doc₁)) cs₂)
    sid₂ doc₂ hm₂ (by rw [c1, b1]; exact Option.noConfusion)
  obtain ⟨g1, g2, g3, g4⟩ := foldSt_preserve classify cs₃
    (pos + (buildCs cs₁).length + (buildC (.header sid₁ doc₁)).length
      + (buildCs cs₂).length + (buildC (.header sid₂ doc₂)).length)
    (stepSt classify
      (pos + (buildCs cs₁).length + (buildC (.header sid₁ doc₁)).length
        + (buildCs cs₂).length)
      (foldSt classify
        (pos + (buildCs cs₁).length + (buildC (.header sid₁ doc₁)).length)
        (stepSt classify (pos + (buildCs cs₁).length)
          (foldSt classify pos st cs₁) (.header sid₁ doc₁)) cs₂)
      (.header sid₂ doc₂))
    (by rw [d1, c1, b1]; exact Option.noConfusion)
  refine ⟨?_, ?_, ?_, ?_, ?_, ?_⟩
  · rw [g1, d1, c1, b1]
  · rw [g2, d2, c2, b2]
  · rw [g3, d3, c3, b3]
  · rw [g4, d4, c4, b4]
  · exact foldSt_more classify cs₃ _ _ e1
  · exact foldSt_mem classify cs₃ _ _ _ e2

/-- C8: when a container holds two (or more) StreamHeader chunks whose
documents pass the metadata name/type test, the locator returns the span,
content and stream id of the first such chunk; a subsequent matching chunk
only sets the duplicate flag (which drives the non-fatal warning naming the
file at main.py:275-277) and has its stream id added to the set of other
stream ids, while the returned location still belongs to the first chunk. -/
theorem C8_duplicate_metadata (classify : List Nat → Option Bool)
    (uid : String) (draws : List Nat) (cs₁ cs₂ cs₃ : List CDesc)
    (sid₁ sid₂ : Nat) (doc₁ doc₂ : List Nat) (t L : Nat) (suf : List Nat)
    (oldpos : Nat)
    (hwf₁ : ∀ c ∈ cs₁, wfC classify c)
    (hnm₁ : ∀ c ∈ cs₁, notMeta classify c)
    (hwf₂ : ∀ c ∈ cs₂, wfC classify c)
    (hwf₃ : ∀ c ∈ cs₃, wfC classify c)
    (hm₁ : classify doc₁ = some true) (hs₁ : sid₁ < 2 ^ 32)
    (hd₁ : doc₁.length + 6 < 2 ^ 64)
    (hm₂ : classify doc₂ = some true) (hs₂ : sid₂ < 2 ^ 32)
    (hd₂ : doc₂.length + 6 < 2 ^ 64)
    (ht : t = 3 ∨ t = 6) (hL : L < 2 ^ 64) :
    get_metadata_content classify uid draws
        (xdfMagic
          ++ buildCs (cs₁ ++ .header sid₁ doc₁
            :: (cs₂ ++ .header sid₂ doc₂ :: cs₃))
          ++ (encVarlen L ++ (leBytes 2 t ++ suf))) oldpos
      = .ok ⟨some doc₁, some (4 + (buildCs cs₁).length),
             some ((buildC (.header sid₁ doc₁)).length), some sid₁, true,
             oldpos⟩ ∧
    sid₂ ∈ (foldSt classify 4 initSt
        (cs₁ ++ .header sid₁ doc₁ :: (cs₂ ++ .header sid₂ doc₂ :: cs₃))
      ).other_ids := by
  have hwfAll : ∀ c ∈ cs₁ ++ .header sid₁ doc₁
      :: (cs₂ ++ .header sid₂ doc₂ :: cs₃), wfC classify c := by
    intro c hc
    simp only [List.mem_append, List.mem_cons] at hc
    rcases hc with h | h | h | h | h
    · exact hwf₁ c h
    · subst h; exact ⟨hs₁, hd₁, by rw [hm₁]; rfl⟩
    · exact hwf₂ c h
    · subst h; exact ⟨hs₂, hd₂, by rw [hm₂]; rfl⟩
    · exact hwf₃ c h
  obtain ⟨s1, s2, s3, s4, s5, s6⟩ := foldSt_dup_shape classify cs₁ cs₂ cs₃
    sid₁ sid₂ doc₁ doc₂ hnm₁ hm₁ hm₂ 4 initSt rfl
  have hft : finishTerm uid draws (foldSt classify 4 initSt
      (cs₁ ++ .header sid₁ doc₁ :: (cs₂ ++ .header sid₂ doc₂ :: cs₃)))
        = .ok (foldSt classify 4 initSt
          (cs₁ ++ .header sid₁ doc₁ :: (cs₂ ++ .header sid₂ doc₂ :: cs₃)))
      := by
    rw [finishTerm, if_neg (by rw [s3]; exact Option.noConfusion)]
  constructor
  · rw [gmc_built classify uid draws _ t L suf oldpos hwfAll ht hL]
    simp only [hft, s1, s2, s3, s4, s5]
  · exact s6

theorem C8_witness :
    get_metadata_content (fun d => some (d == [65])) "u" [10000]
        (xdfMagic
          ++ buildCs ([] ++ .header 7 [65] :: ([] ++ .header 9 [65] :: []))
          ++ (encVarlen 2 ++ (leBytes 2 3 ++ []))) 0
      = .ok ⟨some [65], some (4 + (buildCs []).length),
             some ((buildC (.header 7 [65])).length), some 7, true, 0⟩ ∧
    9 ∈ (foldSt (fun d => some (d == [65])) 4 initSt
        ([] ++ .header 7 [65] :: ([] ++ .header 9 [65] :: []))).other_ids :=
  C8_duplicate_metadata (fun d => some (d == [65])) "u" [10000] [] [] []
    7 9 [65] [65] 3 2 [] 0
    (fun c hc => absurd hc (List.not_mem_nil c))
    (fun c hc => absurd hc (List.not_mem_nil c))
    (fun c hc => absurd hc (List.not_mem_nil c))
    (fun c hc => absurd hc (List.not_mem_nil c))
    (by rfl) (by norm_num) (by norm_num)
    (by rfl) (by norm_num) (by norm_num)
    (Or.inl rfl) (by norm_num)
